import Mathlib

/-!
A shallow embedding of `toSchema.go` (package `bqschema`): the recursive
conversion of a Go struct type, inspected through reflection, into a
BigQuery table schema.  Go types are modelled by the inductive `GoType`;
reflection-level struct fields by `GoField`; the produced
`bigquery.TableFieldSchema` values by `TableFieldSchema`.  The Go function
`ToSchema` mutates a growing slice `schema.Fields` inside a `for` loop over
the struct's fields; this is modelled by `processFields`, which threads the
slice built so far (`acc`) together with the loop index `i`.  A Go runtime
panic (the out-of-range index `schema.Fields[i]` in the array/slice branch)
is modelled by the result `ToSchemaResult.fault`.
-/

set_option maxHeartbeats 1000000

mutual
/-- Model of the Go types that `ToSchema` can encounter. The many integer
kinds (`Int`, `Int8`, ..., `Uint64`) are collapsed into the single
constructor `int` and both float widths into `float`, since `simpleType`
maps each group to one tag; `reflect.Array` and `reflect.Slice` are likewise
collapsed into `array` because the source treats them by one `case`.
A struct carries its reflected `Name()`, its `PkgPath()`, whether it is
`ConvertibleTo(reflect.TypeOf(time.Time\x7b\x7d))`, and its field list.
`other` stands for every remaining kind (map, chan, func, interface,
complex, uintptr, ...), carrying the type's printed name. -/
inductive GoType where
  | bool : GoType
  | int : GoType
  | float : GoType
  | string : GoType
  | ptr (elem : GoType) : GoType
  | array (elem : GoType) : GoType
  | structT (tname : String) (pkgPath : String) (convTime : Bool)
      (fields : List GoField) : GoType
  | other (tname : String) : GoType

/-- A struct field as surfaced by `reflect.Type.Field`: its name, its
`PkgPath` (empty exactly when the field is exported), the value of
`Tag.Get("json")` (empty when absent), and its declared type. -/
inductive GoField where
  | mk (name : String) (pkgPath : String) (jsonTag : String) (typ : GoType) : GoField
end

def GoField.name : GoField → String
  | .mk n _ _ _ => n

def GoField.pkgPath : GoField → String
  | .mk _ p _ _ => p

def GoField.jsonTag : GoField → String
  | .mk _ _ t _ => t

def GoField.typ : GoField → GoType
  | .mk _ _ _ t => t

/-- The reflection kinds `ToSchema` distinguishes (after the collapsing
described at `GoType`). -/
inductive Kind where
  | bool | int | float | string | ptr | array | structK | other
deriving DecidableEq

/-- Model of `reflect.Value.Kind` on the modelled types. -/
def GoType.kind : GoType → Kind
  | .bool => .bool
  | .int => .int
  | .float => .float
  | .string => .string
  | .ptr _ => .ptr
  | .array _ => .array
  | .structT _ _ _ _ => .structK
  | .other _ => .other

/-- Model of `func simpleType(kind reflect.Kind) (string, bool)`. -/
def simpleType : Kind → String × Bool
  | .bool => ("boolean", true)
  | .int => ("integer", true)
  | .float => ("float", true)
  | .string => ("string", true)
  | _ => ("", false)

/-- Model of `func pointerGuard`: one level of pointer indirection is
replaced by a zero value of the pointee type; anything else is returned
unchanged.  (In the source the same helper also accepts a `reflect.Type`,
which it first turns into a zero `reflect.Value`; at the level of types the
two entry forms coincide.) -/
def pointerGuard : GoType → GoType
  | .ptr t => t
  | t => t

/-- Go's `sf.Type.String()`, used only to fill the diagnostic field of
`ErrInconvertibleType`; no claim inspects the produced text. -/
def typeString : GoType → String
  | .bool => "bool"
  | .int => "int"
  | .float => "float64"
  | .string => "string"
  | .ptr t => "*" ++ typeString t
  | .array t => "[]" ++ typeString t
  | .structT n _ _ _ => n
  | .other n => n

/-- Model of `bigquery.TableFieldSchema` restricted to the four components
the source writes: `Name`, `Type`, `Mode`, `Fields`. -/
inductive TableFieldSchema where
  | mk (name : String) (ftype : String) (mode : String)
      (fields : List TableFieldSchema) : TableFieldSchema

def TableFieldSchema.name : TableFieldSchema → String
  | .mk n _ _ _ => n

def TableFieldSchema.ftype : TableFieldSchema → String
  | .mk _ t _ _ => t

def TableFieldSchema.mode : TableFieldSchema → String
  | .mk _ _ m _ => m

def TableFieldSchema.fields : TableFieldSchema → List TableFieldSchema
  | .mk _ _ _ fs => fs

/-- The error values of the source: `ErrNotStruct`, `ErrArrayOfArray`, and
`ErrInconvertibleType` (which carries the offending declared type's name). -/
inductive GoError where
  | notStruct
  | arrayOfArray
  | inconvertibleType (tname : String)
deriving DecidableEq

/-- Outcome of a call to `ToSchema`: a normal return `(schema, nil)`, a
normal return `(schema, err)` with a non-nil error, or a runtime panic
(`fault`, for the out-of-range slice index). -/
inductive ToSchemaResult where
  | ok (fields : List TableFieldSchema)
  | fail (fields : List TableFieldSchema) (e : GoError)
  | fault

/-- Outcome of `structConversion`: the triple `(string, fields, err)` it
returns, or a propagated runtime panic. -/
inductive ConvRes where
  | res (t : String) (fields : List TableFieldSchema) (err : Option GoError)
  | fault

/-- Model of `strings.Contains`. -/
def stringsContains (s sub : String) : Bool :=
  (List.range (s.length + 1)).any (fun k => sub.data.isPrefixOf (s.data.drop k))

def splitCommaAux : List Char → List Char → List (List Char)
  | [], cur => [cur.reverse]
  | c :: rest, cur =>
    if c = ',' then cur.reverse :: splitCommaAux rest []
    else splitCommaAux rest (c :: cur)

/-- Model of `strings.Split(s, ",")` (the only separator the source uses):
the comma-separated components of `s`, with `[""]` for the empty string. -/
def splitComma (s : String) : List String :=
  (splitCommaAux s.data []).map String.mk

/-- The field name after the `json` tag switch: the tag's first
comma-separated component (`jt[0]`) when a non-empty tag is present, the
declared field name otherwise. -/
def jsonName (f : GoField) : String :=
  if f.jsonTag = "" then f.name else (splitComma f.jsonTag).headD ""

/-- The mode after the `json` tag switch: `"nullable"` when the tag has a
second comma-separated component equal to `omitempty` (`len(jt) > 1 &&
jt[1] == "omitempty"`), `"required"` otherwise. -/
def jsonMode (f : GoField) : String :=
  if f.jsonTag = "" then "required"
  else if (splitComma f.jsonTag).getD 1 "" = "omitempty" then "nullable"
  else "required"

/-- Go's `tfs.Type = t` on the element the slice entry points to. -/
def TableFieldSchema.withType : TableFieldSchema → String → TableFieldSchema
  | .mk n _ m fs, t => .mk n t m fs

/-- Go's `tfs.Fields = fields` on the element the slice entry points to. -/
def TableFieldSchema.withFields :
    TableFieldSchema → List TableFieldSchema → TableFieldSchema
  | .mk n t m _, fs => .mk n t m fs

/-- Model of the slice write `schema.Fields[i] = ...` (expressed as an
update function on the pointed-to entry): `none` models the Go runtime
panic `index out of range` when `i` is not below the slice's length. -/
def modifyField : List TableFieldSchema → Nat →
    (TableFieldSchema → TableFieldSchema) → Option (List TableFieldSchema)
  | [], _, _ => none
  | x :: xs, 0, g => some (g x :: xs)
  | x :: xs, n + 1, g => (modifyField xs n g).map (x :: ·)

/-- A field that yields an output entry: exported (`PkgPath` empty) and not
suppressed by the `json:"-"` tag. -/
def emitted (f : GoField) : Bool := f.pkgPath == "" && f.jsonTag != "-"

/-- The entry produced for a field whose (pointer-unwrapped) kind is simple. -/
def simpleEntry (f : GoField) : TableFieldSchema :=
  .mk (jsonName f) (simpleType (pointerGuard f.typ).kind).1 (jsonMode f) []

mutual
/-- Hereditary one-direction invariant: an entry whose type is not
`"record"` has an empty children list (the amended form of the spec's
children/type connection). -/
def recordOnly : TableFieldSchema → Bool
  | .mk _ t _ fs => (fs.isEmpty || t == "record") && recordOnlyList fs

def recordOnlyList : List TableFieldSchema → Bool
  | [] => true
  | e :: es => recordOnly e && recordOnlyList es
end

mutual
/-- Hereditary two-direction predicate: children non-empty exactly when the
type is `"record"` (the spec's children/type connection as stated). -/
def childrenIffRecord : TableFieldSchema → Bool
  | .mk _ t _ fs => ((!fs.isEmpty) == (t == "record")) && childrenIffRecordList fs

def childrenIffRecordList : List TableFieldSchema → Bool
  | [] => true
  | e :: es => childrenIffRecord e && childrenIffRecordList es
end

theorem GoField.sizeOf_typ_lt (f : GoField) : sizeOf f.typ < sizeOf f := by
  cases f with
  | mk n p t ty => simp [GoField.typ]

theorem pointerGuard_sizeOf_le (t : GoType) : sizeOf (pointerGuard t) ≤ sizeOf t := by
  cases t
  case ptr e => simp [pointerGuard]
  all_goals simp [pointerGuard]

mutual
/-- Model of `func ToSchema(src interface\x7b\x7d) (*bigquery.TableSchema, error)`:
a non-struct input returns the empty schema with `ErrNotStruct`; a struct
input runs the field loop starting from the empty slice at index `0`. -/
def ToSchema : GoType → ToSchemaResult
  | .structT _ _ _ fields => processFields fields 0 []
  | _ => .fail [] .notStruct
termination_by t => 2 * sizeOf t
decreasing_by
  simp_wf
  try simp only [GoType.structT.sizeOf_spec]
  omega

/-- Model of `func structConversion(src interface\x7b\x7d) (string, []*bigquery.TableFieldSchema, error)`:
a struct named `Key` whose package path contains `appengine` resolves to
`("string", nil, nil)`; a struct convertible to `time.Time` resolves to
`("timestamp", nil, nil)`; anything else recurses through `ToSchema` and
returns `("record", schema.Fields, err)`. -/
def structConversion : GoType → ConvRes
  | .structT n p cv fields =>
    if n == "Key" && stringsContains p "appengine" then .res "string" [] none
    else if cv then .res "timestamp" [] none
    else
      match ToSchema (.structT n p cv fields) with
      | .ok fs => .res "record" fs none
      | .fail fs e => .res "record" fs (some e)
      | .fault => .fault
  | t =>
    match ToSchema t with
    | .ok fs => .res "record" fs none
    | .fail fs e => .res "record" fs (some e)
    | .fault => .fault
termination_by t => 2 * sizeOf t + 1
decreasing_by
  all_goals simp_wf

/-- Model of the `for i := 0; i < t.NumField(); i++` loop of `ToSchema`.
`acc` is the slice `schema.Fields` built so far and `i` the loop index.
Unexported fields and fields whose `json` tag is `"-"` are skipped; the
entry `tfs` is appended and then, per kind: simple kinds finish the
iteration; the struct branch saves the tag mode, forces `"nullable"`,
converts, and restores the saved mode only when the resolved type is
`"string"`; the array branch forces `"repeated"` and writes the element's
resolved type through the index expression `schema.Fields[i]`, whose
out-of-range panic is modelled by `fault`; every remaining kind returns
`ErrInconvertibleType` with the declared type's name. -/
def processFields : List GoField → Nat → List TableFieldSchema → ToSchemaResult
  | [], _, acc => .ok acc
  | f :: rest, i, acc =>
    if f.pkgPath ≠ "" then processFields rest (i + 1) acc
    else if f.jsonTag = "-" then processFields rest (i + 1) acc
    else
      match simpleType (pointerGuard f.typ).kind with
      | (t, true) =>
        processFields rest (i + 1) (acc ++ [.mk (jsonName f) t (jsonMode f) []])
      | (_, false) =>
        match hv : pointerGuard f.typ with
        | .structT n2 p2 cv2 fields2 =>
          match structConversion (.structT n2 p2 cv2 fields2) with
          | .fault => .fault
          | .res _ _ (some e) =>
            .fail (acc ++ [.mk (jsonName f) "" "nullable" []]) e
          | .res t fs none =>
            processFields rest (i + 1)
              (acc ++ [.mk (jsonName f) t
                (if t = "string" then jsonMode f else "nullable") fs])
        | .array elem =>
          match simpleType (pointerGuard elem).kind with
          | (t, true) =>
            match modifyField (acc ++ [.mk (jsonName f) "" "repeated" []]) i
                (fun e => e.withType t) with
            | some acc2 => processFields rest (i + 1) acc2
            | none => .fault
          | (_, false) =>
            if (pointerGuard elem).kind ≠ .structK then
              .fail (acc ++ [.mk (jsonName f) "" "repeated" []]) .arrayOfArray
            else
              match structConversion (pointerGuard elem) with
              | .fault => .fault
              | .res _ _ (some e) =>
                .fail (acc ++ [.mk (jsonName f) "" "repeated" []]) e
              | .res t fs none =>
                match modifyField (acc ++ [.mk (jsonName f) "" "repeated" []]) i
                    (fun e => (e.withType t).withFields fs) with
                | some acc2 => processFields rest (i + 1) acc2
                | none => .fault
        | _ =>
          .fail (acc ++ [.mk (jsonName f) "" (jsonMode f) []])
            (.inconvertibleType (typeString f.typ))
termination_by fields _ _ => 2 * sizeOf fields + 1
decreasing_by
  all_goals simp_wf
  all_goals
    first
    | omega
    | (have h1 := pointerGuard_sizeOf_le f.typ
       have h2 := GoField.sizeOf_typ_lt f
       simp_all only [List.cons.sizeOf_spec, GoType.structT.sizeOf_spec,
         GoType.array.sizeOf_spec]
       omega)
    | (have h1 := pointerGuard_sizeOf_le f.typ
       have h2 := GoField.sizeOf_typ_lt f
       have h3 := pointerGuard_sizeOf_le elem
       simp_all only [List.cons.sizeOf_spec, GoType.structT.sizeOf_spec,
         GoType.array.sizeOf_spec]
       omega)
end

/-! Basic facts about the helper functions. -/

theorem pointerGuard_ptr (t : GoType) : pointerGuard (.ptr t) = t := rfl

theorem pointerGuard_eq_self_of_simple (t : GoType)
    (h : (simpleType t.kind).2 = true) : pointerGuard t = t := by
  cases t <;> first | rfl | simp [GoType.kind, simpleType] at h

theorem modifyField_none_of_le (l : List TableFieldSchema) (i : Nat)
    (g : TableFieldSchema → TableFieldSchema) (h : l.length ≤ i) :
    modifyField l i g = none := by
  induction l generalizing i with
  | nil => rw [modifyField]
  | cons x xs ih =>
    cases i with
    | zero => simp at h
    | succ n =>
      rw [modifyField]
      rw [ih n (by simpa using h)]
      rfl

theorem modifyField_lt_of_isSome (l : List TableFieldSchema) (i : Nat)
    (g : TableFieldSchema → TableFieldSchema) (l' : List TableFieldSchema)
    (h : modifyField l i g = some l') : i < l.length := by
  by_contra hc
  rw [modifyField_none_of_le l i g (by omega)] at h
  cases h

theorem modifyField_last (acc : List TableFieldSchema) (x : TableFieldSchema)
    (g : TableFieldSchema → TableFieldSchema) :
    modifyField (acc ++ [x]) acc.length g = some (acc ++ [g x]) := by
  induction acc with
  | nil => rfl
  | cons y ys ih => simp [modifyField, ih]

theorem modifyField_append_last (acc : List TableFieldSchema) (x : TableFieldSchema)
    (i : Nat) (g : TableFieldSchema → TableFieldSchema) (l' : List TableFieldSchema)
    (hlen : acc.length ≤ i) (h : modifyField (acc ++ [x]) i g = some l') :
    i = acc.length ∧ l' = acc ++ [g x] := by
  have hlt := modifyField_lt_of_isSome _ _ _ _ h
  simp at hlt
  have : i = acc.length := by omega
  subst this
  rw [modifyField_last] at h
  cases h
  exact ⟨rfl, rfl⟩

theorem modifyField_map_name (l : List TableFieldSchema) (i : Nat)
    (g : TableFieldSchema → TableFieldSchema) (l' : List TableFieldSchema)
    (hg : ∀ e, (g e).name = e.name) (h : modifyField l i g = some l') :
    l'.map (·.name) = l.map (·.name) := by
  induction l generalizing i l' with
  | nil => cases h
  | cons x xs ih =>
    cases i with
    | zero =>
      rw [modifyField] at h
      cases h
      simp [hg]
    | succ n =>
      rw [modifyField] at h
      cases hmm : modifyField xs n g with
      | none => rw [hmm] at h; cases h
      | some xs' =>
        rw [hmm] at h
        cases h
        simp [ih n xs' hmm]

/-! One-step unfolding lemmas for the field loop, one per source branch. -/

theorem processFields_nil (i : Nat) (acc : List TableFieldSchema) :
    processFields [] i acc = .ok acc := by
  rw [processFields]

theorem processFields_skip_unexported (f : GoField) (rest : List GoField)
    (i : Nat) (acc : List TableFieldSchema) (h : f.pkgPath ≠ "") :
    processFields (f :: rest) i acc = processFields rest (i + 1) acc := by
  rw [processFields]
  simp [h]

theorem processFields_skip_dash (f : GoField) (rest : List GoField)
    (i : Nat) (acc : List TableFieldSchema)
    (h1 : f.pkgPath = "") (h2 : f.jsonTag = "-") :
    processFields (f :: rest) i acc = processFields rest (i + 1) acc := by
  rw [processFields]
  simp [h1, h2]

theorem processFields_simple (f : GoField) (rest : List GoField) (i : Nat)
    (acc : List TableFieldSchema) (t : String)
    (h1 : f.pkgPath = "") (h2 : f.jsonTag ≠ "-")
    (hs : simpleType (pointerGuard f.typ).kind = (t, true)) :
    processFields (f :: rest) i acc =
      processFields rest (i + 1) (acc ++ [.mk (jsonName f) t (jsonMode f) []]) := by
  rw [processFields]
  simp [h1, h2, hs]

theorem processFields_struct (f : GoField) (rest : List GoField) (i : Nat)
    (acc : List TableFieldSchema) (n2 p2 : String) (cv2 : Bool) (fields2 : List GoField)
    (t : String) (fs : List TableFieldSchema)
    (h1 : f.pkgPath = "") (h2 : f.jsonTag ≠ "-")
    (hpg : pointerGuard f.typ = .structT n2 p2 cv2 fields2)
    (hc : structConversion (.structT n2 p2 cv2 fields2) = .res t fs none) :
    processFields (f :: rest) i acc =
      processFields rest (i + 1)
        (acc ++ [.mk (jsonName f) t
          (if t = "string" then jsonMode f else "nullable") fs]) := by
  rw [processFields]
  rw [hpg]
  simp [h1, h2, hc, GoType.kind, simpleType]

theorem processFields_struct_err (f : GoField) (rest : List GoField) (i : Nat)
    (acc : List TableFieldSchema) (n2 p2 : String) (cv2 : Bool) (fields2 : List GoField)
    (t : String) (fs : List TableFieldSchema) (e : GoError)
    (h1 : f.pkgPath = "") (h2 : f.jsonTag ≠ "-")
    (hpg : pointerGuard f.typ = .structT n2 p2 cv2 fields2)
    (hc : structConversion (.structT n2 p2 cv2 fields2) = .res t fs (some e)) :
    processFields (f :: rest) i acc =
      .fail (acc ++ [.mk (jsonName f) "" "nullable" []]) e := by
  rw [processFields]
  rw [hpg]
  simp [h1, h2, hc, GoType.kind, simpleType]

theorem processFields_struct_fault (f : GoField) (rest : List GoField) (i : Nat)
    (acc : List TableFieldSchema) (n2 p2 : String) (cv2 : Bool) (fields2 : List GoField)
    (h1 : f.pkgPath = "") (h2 : f.jsonTag ≠ "-")
    (hpg : pointerGuard f.typ = .structT n2 p2 cv2 fields2)
    (hc : structConversion (.structT n2 p2 cv2 fields2) = .fault) :
    processFields (f :: rest) i acc = .fault := by
  rw [processFields]
  rw [hpg]
  simp [h1, h2, hc, GoType.kind, simpleType]

theorem GoType.kind_array_eq (e : GoType) : (GoType.array e).kind = Kind.array := rfl

theorem simpleType_array_eq : simpleType Kind.array = ("", false) := rfl

theorem processFields_array_simple (f : GoField) (rest : List GoField) (i : Nat)
    (acc : List TableFieldSchema) (elem : GoType) (t : String)
    (h1 : f.pkgPath = "") (h2 : f.jsonTag ≠ "-")
    (hpg : pointerGuard f.typ = .array elem)
    (hs : simpleType (pointerGuard elem).kind = (t, true))
    (hi : acc.length = i) :
    processFields (f :: rest) i acc =
      processFields rest (i + 1) (acc ++ [.mk (jsonName f) t "repeated" []]) := by
  rw [processFields]
  rw [hpg]
  subst hi
  simp [h1, h2, hs, GoType.kind_array_eq, simpleType_array_eq, modifyField_last,
    TableFieldSchema.withType]

theorem processFields_array_simple_oob (f : GoField) (rest : List GoField) (i : Nat)
    (acc : List TableFieldSchema) (elem : GoType) (t : String)
    (h1 : f.pkgPath = "") (h2 : f.jsonTag ≠ "-")
    (hpg : pointerGuard f.typ = .array elem)
    (hs : simpleType (pointerGuard elem).kind = (t, true))
    (hi : acc.length < i) :
    processFields (f :: rest) i acc = .fault := by
  rw [processFields]
  rw [hpg]
  have hnone := modifyField_none_of_le
    (acc ++ [.mk (jsonName f) "" "repeated" []]) i
    (fun e => e.withType t) (by simp; omega)
  simp [h1, h2, hs, GoType.kind_array_eq, simpleType_array_eq, hnone]

theorem processFields_array_notStruct (f : GoField) (rest : List GoField) (i : Nat)
    (acc : List TableFieldSchema) (elem : GoType)
    (h1 : f.pkgPath = "") (h2 : f.jsonTag ≠ "-")
    (hpg : pointerGuard f.typ = .array elem)
    (hs : simpleType (pointerGuard elem).kind = ("", false))
    (hk : (pointerGuard elem).kind ≠ .structK) :
    processFields (f :: rest) i acc =
      .fail (acc ++ [.mk (jsonName f) "" "repeated" []]) .arrayOfArray := by
  rw [processFields]
  rw [hpg]
  simp [h1, h2, hs, hk, GoType.kind_array_eq, simpleType_array_eq]

theorem processFields_array_struct (f : GoField) (rest : List GoField) (i : Nat)
    (acc : List TableFieldSchema) (elem : GoType)
    (n2 p2 : String) (cv2 : Bool) (fields2 : List GoField)
    (t : String) (fs : List TableFieldSchema)
    (h1 : f.pkgPath = "") (h2 : f.jsonTag ≠ "-")
    (hpg : pointerGuard f.typ = .array elem)
    (hse : pointerGuard elem = .structT n2 p2 cv2 fields2)
    (hc : structConversion (.structT n2 p2 cv2 fields2) = .res t fs none)
    (hi : acc.length = i) :
    processFields (f :: rest) i acc =
      processFields rest (i + 1) (acc ++ [.mk (jsonName f) t "repeated" fs]) := by
  rw [processFields]
  rw [hpg]
  subst hi
  simp [h1, h2, hse, hc, GoType.kind, simpleType, modifyField_last,
    TableFieldSchema.withType, TableFieldSchema.withFields]

theorem processFields_array_struct_err (f : GoField) (rest : List GoField) (i : Nat)
    (acc : List TableFieldSchema) (elem : GoType)
    (n2 p2 : String) (cv2 : Bool) (fields2 : List GoField)
    (t : String) (fs : List TableFieldSchema) (e : GoError)
    (h1 : f.pkgPath = "") (h2 : f.jsonTag ≠ "-")
    (hpg : pointerGuard f.typ = .array elem)
    (hse : pointerGuard elem = .structT n2 p2 cv2 fields2)
    (hc : structConversion (.structT n2 p2 cv2 fields2) = .res t fs (some e)) :
    processFields (f :: rest) i acc =
      .fail (acc ++ [.mk (jsonName f) "" "repeated" []]) e := by
  rw [processFields]
  rw [hpg]
  simp [h1, h2, hse, hc, GoType.kind, simpleType]

theorem processFields_array_struct_fault (f : GoField) (rest : List GoField) (i : Nat)
    (acc : List TableFieldSchema) (elem : GoType)
    (n2 p2 : String) (cv2 : Bool) (fields2 : List GoField)
    (h1 : f.pkgPath = "") (h2 : f.jsonTag ≠ "-")
    (hpg : pointerGuard f.typ = .array elem)
    (hse : pointerGuard elem = .structT n2 p2 cv2 fields2)
    (hc : structConversion (.structT n2 p2 cv2 fields2) = .fault) :
    processFields (f :: rest) i acc = .fault := by
  rw [processFields]
  rw [hpg]
  simp [h1, h2, hse, hc, GoType.kind, simpleType]

theorem processFields_array_struct_oob (f : GoField) (rest : List GoField) (i : Nat)
    (acc : List TableFieldSchema) (elem : GoType)
    (n2 p2 : String) (cv2 : Bool) (fields2 : List GoField)
    (t : String) (fs : List TableFieldSchema)
    (h1 : f.pkgPath = "") (h2 : f.jsonTag ≠ "-")
    (hpg : pointerGuard f.typ = .array elem)
    (hse : pointerGuard elem = .structT n2 p2 cv2 fields2)
    (hc : structConversion (.structT n2 p2 cv2 fields2) = .res t fs none)
    (hi : acc.length < i) :
    processFields (f :: rest) i acc = .fault := by
  rw [processFields]
  rw [hpg]
  have hnone := modifyField_none_of_le
    (acc ++ [.mk (jsonName f) "" "repeated" []]) i
    (fun e => (e.withType t).withFields fs) (by simp; omega)
  simp [h1, h2, hse, hc, GoType.kind, simpleType, hnone]

theorem processFields_inconvertible (f : GoField) (rest : List GoField) (i : Nat)
    (acc : List TableFieldSchema)
    (h1 : f.pkgPath = "") (h2 : f.jsonTag ≠ "-")
    (hs : simpleType (pointerGuard f.typ).kind = ("", false))
    (hk : ∀ e, pointerGuard f.typ ≠ .array e)
    (hk2 : ∀ n p cv fl, pointerGuard f.typ ≠ .structT n p cv fl) :
    processFields (f :: rest) i acc =
      .fail (acc ++ [.mk (jsonName f) "" (jsonMode f) []])
        (.inconvertibleType (typeString f.typ)) := by
  rw [processFields]
  cases hpe : pointerGuard f.typ with
  | structT n p cv fl => exact absurd hpe (hk2 n p cv fl)
  | array e => exact absurd hpe (hk e)
  | bool => rw [hpe] at hs; simp [GoType.kind, simpleType] at hs
  | int => rw [hpe] at hs; simp [GoType.kind, simpleType] at hs
  | float => rw [hpe] at hs; simp [GoType.kind, simpleType] at hs
  | string => rw [hpe] at hs; simp [GoType.kind, simpleType] at hs
  | ptr e => simp [h1, h2, GoType.kind, simpleType]
  | other tn => simp [h1, h2, GoType.kind, simpleType]

/-! Characterization of `structConversion`. -/

theorem structConversion_key (n p : String) (cv : Bool) (fl : List GoField)
    (h : (n == "Key" && stringsContains p "appengine") = true) :
    structConversion (.structT n p cv fl) = .res "string" [] none := by
  rw [structConversion]
  simp [h]

theorem structConversion_time (n p : String) (fl : List GoField)
    (h : (n == "Key" && stringsContains p "appengine") = false) :
    structConversion (.structT n p true fl) = .res "timestamp" [] none := by
  rw [structConversion]
  simp [h]

theorem structConversion_rec_ok (n p : String) (fl : List GoField)
    (fs : List TableFieldSchema)
    (h : (n == "Key" && stringsContains p "appengine") = false)
    (hts : ToSchema (.structT n p false fl) = .ok fs) :
    structConversion (.structT n p false fl) = .res "record" fs none := by
  rw [structConversion]
  simp [h, hts]

theorem structConversion_rec_err (n p : String) (fl : List GoField)
    (fs : List TableFieldSchema) (e : GoError)
    (h : (n == "Key" && stringsContains p "appengine") = false)
    (hts : ToSchema (.structT n p false fl) = .fail fs e) :
    structConversion (.structT n p false fl) = .res "record" fs (some e) := by
  rw [structConversion]
  simp [h, hts]

/-! Top level and inversion lemmas. -/

theorem ToSchema_struct (n p : String) (cv : Bool) (fl : List GoField) :
    ToSchema (.structT n p cv fl) = processFields fl 0 [] := by
  rw [ToSchema]

theorem ToSchema_ok_inv (v : GoType) (fs : List TableFieldSchema)
    (h : ToSchema v = .ok fs) :
    ∃ n p cv fl, v = .structT n p cv fl ∧ processFields fl 0 [] = .ok fs := by
  cases v with
  | structT n p cv fl =>
    rw [ToSchema] at h
    exact ⟨n, p, cv, fl, rfl, h⟩
  | bool => simp [ToSchema] at h
  | int => simp [ToSchema] at h
  | float => simp [ToSchema] at h
  | string => simp [ToSchema] at h
  | ptr e => simp [ToSchema] at h
  | array e => simp [ToSchema] at h
  | other tn => simp [ToSchema] at h

theorem structConversion_res_none_cases (v : GoType) (t : String)
    (fs : List TableFieldSchema) (h : structConversion v = .res t fs none) :
    (fs = [] ∧ (t = "string" ∨ t = "timestamp")) ∨
      (t = "record" ∧ ToSchema v = .ok fs) := by
  cases v with
  | structT n p cv fl =>
    rw [structConversion] at h
    by_cases hkey : (n == "Key" && stringsContains p "appengine") = true
    · rw [if_pos hkey] at h
      injection h with h1 h2 h3
      exact Or.inl ⟨h2.symm, Or.inl h1.symm⟩
    · have hk' : (n == "Key" && stringsContains p "appengine") = false := by
        simpa using hkey
      rw [hk'] at h
      simp only [Bool.false_eq_true, if_false] at h
      cases cv with
      | true =>
        rw [if_pos rfl] at h
        injection h with h1 h2 h3
        exact Or.inl ⟨h2.symm, Or.inr h1.symm⟩
      | false =>
        simp only [Bool.false_eq_true, if_false] at h
        cases hts : ToSchema (.structT n p false fl) with
        | ok fs' =>
          rw [hts] at h
          injection h with h1 h2 h3
          subst h2
          exact Or.inr ⟨h1.symm, rfl⟩
        | fail fs' e => rw [hts] at h; simp at h
        | fault => rw [hts] at h; simp at h
  | bool => simp [structConversion, ToSchema] at h
  | int => simp [structConversion, ToSchema] at h
  | float => simp [structConversion, ToSchema] at h
  | string => simp [structConversion, ToSchema] at h
  | ptr e => simp [structConversion, ToSchema] at h
  | array e => simp [structConversion, ToSchema] at h
  | other tn => simp [structConversion, ToSchema] at h

theorem TableFieldSchema.withType_name (e : TableFieldSchema) (t : String) :
    (e.withType t).name = e.name := by
  cases e
  rfl

theorem TableFieldSchema.withFields_name (e : TableFieldSchema)
    (fs : List TableFieldSchema) : (e.withFields fs).name = e.name := by
  cases e
  rfl

theorem processFields_array_simple_gen (f : GoField) (rest : List GoField) (i : Nat)
    (acc : List TableFieldSchema) (elem : GoType) (t : String)
    (h1 : f.pkgPath = "") (h2 : f.jsonTag ≠ "-")
    (hpg : pointerGuard f.typ = .array elem)
    (hs : simpleType (pointerGuard elem).kind = (t, true)) :
    processFields (f :: rest) i acc =
      match modifyField (acc ++ [.mk (jsonName f) "" "repeated" []]) i
          (fun e => e.withType t) with
      | some acc2 => processFields rest (i + 1) acc2
      | none => .fault := by
  rw [processFields]
  rw [hpg]
  simp [h1, h2, hs, GoType.kind_array_eq, simpleType_array_eq]

theorem processFields_array_struct_gen (f : GoField) (rest : List GoField) (i : Nat)
    (acc : List TableFieldSchema) (elem : GoType)
    (n2 p2 : String) (cv2 : Bool) (fields2 : List GoField)
    (t : String) (fs : List TableFieldSchema)
    (h1 : f.pkgPath = "") (h2 : f.jsonTag ≠ "-")
    (hpg : pointerGuard f.typ = .array elem)
    (hse : pointerGuard elem = .structT n2 p2 cv2 fields2)
    (hc : structConversion (.structT n2 p2 cv2 fields2) = .res t fs none) :
    processFields (f :: rest) i acc =
      match modifyField (acc ++ [.mk (jsonName f) "" "repeated" []]) i
          (fun e => (e.withType t).withFields fs) with
      | some acc2 => processFields rest (i + 1) acc2
      | none => .fault := by
  rw [processFields]
  rw [hpg]
  simp [h1, h2, hse, hc, GoType.kind, simpleType]

/-- When the loop finishes without error or panic, the entry names are the
already-built prefix followed by the tag-resolved names of the emitted
fields, in declaration order. -/
theorem processFields_ok_names (flds : List GoField) :
    ∀ (i : Nat) (acc fs : List TableFieldSchema),
      processFields flds i acc = .ok fs →
      fs.map TableFieldSchema.name =
        acc.map TableFieldSchema.name ++ (flds.filter emitted).map jsonName := by
  induction flds with
  | nil =>
    intro i acc fs h
    rw [processFields_nil] at h
    injection h with h1
    subst h1
    simp
  | cons f rest ih =>
    intro i acc fs h
    by_cases h1 : f.pkgPath = ""
    · by_cases h2 : f.jsonTag = "-"
      · rw [processFields_skip_dash f rest i acc h1 h2] at h
        rw [ih _ _ _ h]
        simp [emitted, h1, h2]
      · have hemit : emitted f = true := by simp [emitted, h1, h2]
        cases hpe : pointerGuard f.typ with
        | bool =>
          rw [processFields_simple f rest i acc "boolean" h1 h2 (by rw [hpe]; rfl)] at h
          rw [ih _ _ _ h]
          simp [List.filter_cons, hemit, TableFieldSchema.name]
        | int =>
          rw [processFields_simple f rest i acc "integer" h1 h2 (by rw [hpe]; rfl)] at h
          rw [ih _ _ _ h]
          simp [List.filter_cons, hemit, TableFieldSchema.name]
        | float =>
          rw [processFields_simple f rest i acc "float" h1 h2 (by rw [hpe]; rfl)] at h
          rw [ih _ _ _ h]
          simp [List.filter_cons, hemit, TableFieldSchema.name]
        | string =>
          rw [processFields_simple f rest i acc "string" h1 h2 (by rw [hpe]; rfl)] at h
          rw [ih _ _ _ h]
          simp [List.filter_cons, hemit, TableFieldSchema.name]
        | ptr e =>
          rw [processFields_inconvertible f rest i acc h1 h2 (by rw [hpe]; rfl)
            (by intro x hx; rw [hpe] at hx; cases hx)
            (by intro a b c d hx; rw [hpe] at hx; cases hx)] at h
          cases h
        | other tn =>
          rw [processFields_inconvertible f rest i acc h1 h2 (by rw [hpe]; rfl)
            (by intro x hx; rw [hpe] at hx; cases hx)
            (by intro a b c d hx; rw [hpe] at hx; cases hx)] at h
          cases h
        | structT n2 p2 cv2 fl2 =>
          cases hc : structConversion (.structT n2 p2 cv2 fl2) with
          | fault =>
            rw [processFields_struct_fault f rest i acc n2 p2 cv2 fl2 h1 h2 hpe hc] at h
            cases h
          | res t' fs' err =>
            cases err with
            | some e =>
              rw [processFields_struct_err f rest i acc n2 p2 cv2 fl2 t' fs' e
                h1 h2 hpe hc] at h
              cases h
            | none =>
              rw [processFields_struct f rest i acc n2 p2 cv2 fl2 t' fs'
                h1 h2 hpe hc] at h
              rw [ih _ _ _ h]
              simp [List.filter_cons, hemit, TableFieldSchema.name]
        | array elem =>
          cases hek : pointerGuard elem with
          | structT n2 p2 cv2 fl2 =>
            cases hc : structConversion (.structT n2 p2 cv2 fl2) with
            | fault =>
              rw [processFields_array_struct_fault f rest i acc elem n2 p2 cv2 fl2
                h1 h2 hpe hek hc] at h
              cases h
            | res t' fs' err =>
              cases err with
              | some e =>
                rw [processFields_array_struct_err f rest i acc elem n2 p2 cv2 fl2
                  t' fs' e h1 h2 hpe hek hc] at h
                cases h
              | none =>
                rw [processFields_array_struct_gen f rest i acc elem n2 p2 cv2 fl2
                  t' fs' h1 h2 hpe hek hc] at h
                cases hm : modifyField (acc ++ [.mk (jsonName f) "" "repeated" []]) i
                    (fun e => (e.withType t').withFields fs') with
                | none => rw [hm] at h; cases h
                | some acc2 =>
                  rw [hm] at h
                  rw [ih _ _ _ h]
                  rw [modifyField_map_name _ _ _ _
                    (fun e => by simp [TableFieldSchema.withType_name,
                      TableFieldSchema.withFields_name]) hm]
                  simp [List.filter_cons, hemit, TableFieldSchema.name]
          | bool =>
            rw [processFields_array_simple_gen f rest i acc elem "boolean"
              h1 h2 hpe (by rw [hek]; rfl)] at h
            cases hm : modifyField (acc ++ [.mk (jsonName f) "" "repeated" []]) i
                (fun e => e.withType "boolean") with
            | none => rw [hm] at h; cases h
            | some acc2 =>
              rw [hm] at h
              rw [ih _ _ _ h]
              rw [modifyField_map_name _ _ _ _
                (fun e => by simp [TableFieldSchema.withType_name]) hm]
              simp [List.filter_cons, hemit, TableFieldSchema.name]
          | int =>
            rw [processFields_array_simple_gen f rest i acc elem "integer"
              h1 h2 hpe (by rw [hek]; rfl)] at h
            cases hm : modifyField (acc ++ [.mk (jsonName f) "" "repeated" []]) i
                (fun e => e.withType "integer") with
            | none => rw [hm] at h; cases h
            | some acc2 =>
              rw [hm] at h
              rw [ih _ _ _ h]
              rw [modifyField_map_name _ _ _ _
                (fun e => by simp [TableFieldSchema.withType_name]) hm]
              simp [List.filter_cons, hemit, TableFieldSchema.name]
          | float =>
            rw [processFields_array_simple_gen f rest i acc elem "float"
              h1 h2 hpe (by rw [hek]; rfl)] at h
            cases hm : modifyField (acc ++ [.mk (jsonName f) "" "repeated" []]) i
                (fun e => e.withType "float") with
            | none => rw [hm] at h; cases h
            | some acc2 =>
              rw [hm] at h
              rw [ih _ _ _ h]
              rw [modifyField_map_name _ _ _ _
                (fun e => by simp [TableFieldSchema.withType_name]) hm]
              simp [List.filter_cons, hemit, TableFieldSchema.name]
          | string =>
            rw [processFields_array_simple_gen f rest i acc elem "string"
              h1 h2 hpe (by rw [hek]; rfl)] at h
            cases hm : modifyField (acc ++ [.mk (jsonName f) "" "repeated" []]) i
                (fun e => e.withType "string") with
            | none => rw [hm] at h; cases h
            | some acc2 =>
              rw [hm] at h
              rw [ih _ _ _ h]
              rw [modifyField_map_name _ _ _ _
                (fun e => by simp [TableFieldSchema.withType_name]) hm]
              simp [List.filter_cons, hemit, TableFieldSchema.name]
          | ptr e2 =>
            rw [processFields_array_notStruct f rest i acc elem h1 h2 hpe
              (by rw [hek]; rfl) (by rw [hek]; simp [GoType.kind])] at h
            cases h
          | array e2 =>
            rw [processFields_array_notStruct f rest i acc elem h1 h2 hpe
              (by rw [hek]; rfl) (by rw [hek]; simp [GoType.kind])] at h
            cases h
          | other tn =>
            rw [processFields_array_notStruct f rest i acc elem h1 h2 hpe
              (by rw [hek]; rfl) (by rw [hek]; simp [GoType.kind])] at h
            cases h
    · rw [processFields_skip_unexported f rest i acc h1] at h
      rw [ih _ _ _ h]
      simp [emitted, h1]

theorem recordOnlyList_append (l1 l2 : List TableFieldSchema) :
    recordOnlyList (l1 ++ l2) = (recordOnlyList l1 && recordOnlyList l2) := by
  induction l1 with
  | nil => simp [recordOnlyList]
  | cons e es ih => simp [recordOnlyList, ih, Bool.and_assoc]

theorem recordOnly_leaf (n t m : String) : recordOnly (.mk n t m []) = true := by
  simp [recordOnly, recordOnlyList]

theorem recordOnly_record (n m : String) (fs : List TableFieldSchema)
    (h : recordOnlyList fs = true) : recordOnly (.mk n "record" m fs) = true := by
  simp [recordOnly, h]

theorem simpleType_false (k : Kind) (h : (simpleType k).2 = false) :
    simpleType k = ("", false) := by
  cases k <;> simp [simpleType] at h ⊢

/-- When the loop finishes without error or panic, and the already-built
prefix satisfies the hereditary children/type invariant with its length not
exceeding the loop index, the final slice satisfies the invariant. -/
theorem processFields_ok_recordOnly :
    ∀ (N : Nat) (flds : List GoField) (i : Nat) (acc fs : List TableFieldSchema),
      sizeOf flds < N → acc.length ≤ i → recordOnlyList acc = true →
      processFields flds i acc = .ok fs → recordOnlyList fs = true := by
  intro N
  induction N with
  | zero => intro flds i acc fs hN; omega
  | succ N ihN =>
    intro flds i acc fs hN hlen hacc h
    cases flds with
    | nil =>
      rw [processFields_nil] at h
      injection h with h1
      subst h1
      exact hacc
    | cons f rest =>
      have hrest : sizeOf rest < N := by
        simp only [List.cons.sizeOf_spec] at hN
        have hf : 0 < sizeOf f := by cases f; simp
        omega
      by_cases h1 : f.pkgPath = ""
      · by_cases h2 : f.jsonTag = "-"
        · rw [processFields_skip_dash f rest i acc h1 h2] at h
          exact ihN rest (i + 1) acc fs hrest (by omega) hacc h
        · rcases hsim : simpleType (pointerGuard f.typ).kind with ⟨ts, b⟩
          cases b with
          | true =>
            rw [processFields_simple f rest i acc ts h1 h2 hsim] at h
            refine ihN rest (i + 1) _ fs hrest (by simp; omega) ?_ h
            rw [recordOnlyList_append, hacc]
            simp [recordOnlyList, recordOnly_leaf]
          | false =>
            cases hpe : pointerGuard f.typ with
            | bool => rw [hpe] at hsim; simp [GoType.kind, simpleType] at hsim
            | int => rw [hpe] at hsim; simp [GoType.kind, simpleType] at hsim
            | float => rw [hpe] at hsim; simp [GoType.kind, simpleType] at hsim
            | string => rw [hpe] at hsim; simp [GoType.kind, simpleType] at hsim
            | ptr e =>
              rw [processFields_inconvertible f rest i acc h1 h2 (by rw [hpe]; rfl)
                (by intro x hx; rw [hpe] at hx; cases hx)
                (by intro a b c d hx; rw [hpe] at hx; cases hx)] at h
              cases h
            | other tn =>
              rw [processFields_inconvertible f rest i acc h1 h2 (by rw [hpe]; rfl)
                (by intro x hx; rw [hpe] at hx; cases hx)
                (by intro a b c d hx; rw [hpe] at hx; cases hx)] at h
              cases h
            | structT n2 p2 cv2 fl2 =>
              have hszf : sizeOf fl2 < N := by
                have hs1 := pointerGuard_sizeOf_le f.typ
                rw [hpe] at hs1
                have hs2 := GoField.sizeOf_typ_lt f
                simp only [GoType.structT.sizeOf_spec] at hs1
                simp only [List.cons.sizeOf_spec] at hN
                omega
              cases hc : structConversion (.structT n2 p2 cv2 fl2) with
              | fault =>
                rw [processFields_struct_fault f rest i acc n2 p2 cv2 fl2
                  h1 h2 hpe hc] at h
                cases h
              | res t' fs' err =>
                cases err with
                | some e =>
                  rw [processFields_struct_err f rest i acc n2 p2 cv2 fl2 t' fs' e
                    h1 h2 hpe hc] at h
                  cases h
                | none =>
                  rw [processFields_struct f rest i acc n2 p2 cv2 fl2 t' fs'
                    h1 h2 hpe hc] at h
                  have hgood : recordOnly (.mk (jsonName f) t'
                      (if t' = "string" then jsonMode f else "nullable") fs') = true := by
                    rcases structConversion_res_none_cases _ _ _ hc with
                      ⟨hfs, _⟩ | ⟨ht, hts⟩
                    · subst hfs; exact recordOnly_leaf _ _ _
                    · subst ht
                      rw [ToSchema_struct] at hts
                      exact recordOnly_record _ _ _
                        (ihN fl2 0 [] fs' hszf (by simp) (by simp [recordOnlyList]) hts)
                  refine ihN rest (i + 1) _ fs hrest (by simp; omega) ?_ h
                  rw [recordOnlyList_append, hacc]
                  simp [recordOnlyList, hgood]
            | array elem =>
              rcases hsime : simpleType (pointerGuard elem).kind with ⟨tse, be⟩
              cases be with
              | true =>
                rw [processFields_array_simple_gen f rest i acc elem tse
                  h1 h2 hpe hsime] at h
                cases hm : modifyField (acc ++ [.mk (jsonName f) "" "repeated" []]) i
                    (fun e => e.withType tse) with
                | none => rw [hm] at h; cases h
                | some acc2 =>
                  rw [hm] at h
                  obtain ⟨hieq, hacc2⟩ := modifyField_append_last _ _ _ _ _ hlen hm
                  subst hacc2
                  refine ihN rest (i + 1) _ fs hrest (by simp; omega) ?_ h
                  rw [recordOnlyList_append, hacc]
                  simp [recordOnlyList, TableFieldSchema.withType, recordOnly_leaf]
              | false =>
                cases hek : pointerGuard elem with
                | bool => rw [hek] at hsime; simp [GoType.kind, simpleType] at hsime
                | int => rw [hek] at hsime; simp [GoType.kind, simpleType] at hsime
                | float => rw [hek] at hsime; simp [GoType.kind, simpleType] at hsime
                | string => rw [hek] at hsime; simp [GoType.kind, simpleType] at hsime
                | ptr e2 =>
                  rw [processFields_array_notStruct f rest i acc elem h1 h2 hpe
                    (by rw [hek]; rfl) (by rw [hek]; simp [GoType.kind])] at h
                  cases h
                | array e2 =>
                  rw [processFields_array_notStruct f rest i acc elem h1 h2 hpe
                    (by rw [hek]; rfl) (by rw [hek]; simp [GoType.kind])] at h
                  cases h
                | other tn =>
                  rw [processFields_array_notStruct f rest i acc elem h1 h2 hpe
                    (by rw [hek]; rfl) (by rw [hek]; simp [GoType.kind])] at h
                  cases h
                | structT n2 p2 cv2 fl2 =>
                  have hszf : sizeOf fl2 < N := by
                    have hs1 := pointerGuard_sizeOf_le f.typ
                    rw [hpe] at hs1
                    have hsE := pointerGuard_sizeOf_le elem
                    rw [hek] at hsE
                    have hs2 := GoField.sizeOf_typ_lt f
                    simp only [GoType.structT.sizeOf_spec] at hsE
                    simp only [GoType.array.sizeOf_spec] at hs1
                    simp only [List.cons.sizeOf_spec] at hN
                    omega
                  cases hc : structConversion (.structT n2 p2 cv2 fl2) with
                  | fault =>
                    rw [processFields_array_struct_fault f rest i acc elem n2 p2 cv2 fl2
                      h1 h2 hpe hek hc] at h
                    cases h
                  | res t' fs' err =>
                    cases err with
                    | some e =>
                      rw [processFields_array_struct_err f rest i acc elem n2 p2 cv2 fl2
                        t' fs' e h1 h2 hpe hek hc] at h
                      cases h
                    | none =>
                      rw [processFields_array_struct_gen f rest i acc elem n2 p2 cv2 fl2
                        t' fs' h1 h2 hpe hek hc] at h
                      cases hm : modifyField
                          (acc ++ [.mk (jsonName f) "" "repeated" []]) i
                          (fun e => (e.withType t').withFields fs') with
                      | none => rw [hm] at h; cases h
                      | some acc2 =>
                        rw [hm] at h
                        obtain ⟨hieq, hacc2⟩ := modifyField_append_last _ _ _ _ _ hlen hm
                        subst hacc2
                        have hgood : recordOnly (.mk (jsonName f) t' "repeated" fs') = true := by
                          rcases structConversion_res_none_cases _ _ _ hc with
                            ⟨hfs, _⟩ | ⟨ht, hts⟩
                          · subst hfs; exact recordOnly_leaf _ _ _
                          · subst ht
                            rw [ToSchema_struct] at hts
                            exact recordOnly_record _ _ _
                              (ihN fl2 0 [] fs' hszf (by simp) (by simp [recordOnlyList]) hts)
                        refine ihN rest (i + 1) _ fs hrest (by simp; omega) ?_ h
                        rw [recordOnlyList_append, hacc]
                        simp [recordOnlyList, TableFieldSchema.withType,
                          TableFieldSchema.withFields, hgood]
      · rw [processFields_skip_unexported f rest i acc h1] at h
        exact ihN rest (i + 1) acc fs hrest (by omega) hacc h

/-- A struct whose exported fields all have simple (pointer-unwrapped) kinds
converts without error: one entry per emitted field, in declaration order. -/
theorem processFields_all_simple (flds : List GoField) :
    ∀ (i : Nat) (acc : List TableFieldSchema),
      (∀ f ∈ flds, f.pkgPath = "" → (simpleType (pointerGuard f.typ).kind).2 = true) →
      processFields flds i acc = .ok (acc ++ (flds.filter emitted).map simpleEntry) := by
  induction flds with
  | nil =>
    intro i acc _
    rw [processFields_nil]
    simp
  | cons f rest ih =>
    intro i acc hall
    by_cases h1 : f.pkgPath = ""
    · by_cases h2 : f.jsonTag = "-"
      · rw [processFields_skip_dash f rest i acc h1 h2]
        rw [ih (i + 1) acc (fun g hg => hall g (List.mem_cons_of_mem f hg))]
        simp [emitted, h1, h2]
      · have hsimple := hall f (List.mem_cons_self f rest) h1
        have hs : simpleType (pointerGuard f.typ).kind =
            ((simpleType (pointerGuard f.typ).kind).1, true) := by
          rw [← hsimple]
        rw [processFields_simple f rest i acc _ h1 h2 hs]
        rw [ih (i + 1) _ (fun g hg => hall g (List.mem_cons_of_mem f hg))]
        have hemit : emitted f = true := by simp [emitted, h1, h2]
        simp [List.filter_cons, hemit, simpleEntry]
    · rw [processFields_skip_unexported f rest i acc h1]
      rw [ih (i + 1) acc (fun g hg => hall g (List.mem_cons_of_mem f hg))]
      simp [emitted, h1]

/-- A non-struct top-level input returns the empty schema with the
`ErrNotStruct` error, before any field is examined. -/
theorem ToSchema_notStruct (t : GoType) (h : t.kind ≠ .structK) :
    ToSchema t = .fail [] .notStruct := by
  cases t with
  | structT n p cv fl => simp [GoType.kind] at h
  | bool => simp [ToSchema]
  | int => simp [ToSchema]
  | float => simp [ToSchema]
  | string => simp [ToSchema]
  | ptr e => simp [ToSchema]
  | array e => simp [ToSchema]
  | other tn => simp [ToSchema]

/-! The claims. -/

/-- C1 (counterexample): the claim as stated is false.  A field of type
`time.Time` with no tag has annotation-derived mode `"required"`, but the
source restores the saved mode only when the resolved type is `"string"`,
so the emitted timestamp entry carries mode `"nullable"`. -/
theorem C1_cex :
    ToSchema (.structT "S" "" false [.mk "When" "" "" (.structT "Time" "time" true [])]) =
      .ok [.mk "When" "timestamp" "nullable" []] ∧
    jsonMode (.mk "When" "" "" (.structT "Time" "time" true [])) = "required" ∧
    (("nullable" : String) == "required") = false := by
  refine ⟨?_, by rfl, by decide⟩
  simp [ToSchema, processFields, structConversion, pointerGuard, GoType.kind,
    simpleType, GoField.pkgPath, GoField.jsonTag, GoField.typ, GoField.name,
    jsonName, jsonMode]

/-- C1 (amended): a visible, non-suppressed field whose pointer-unwrapped
type is a struct convertible to `time.Time` (and not the appengine `Key`
special case) produces the entry `type = "timestamp"`, empty children, and
mode forced to `"nullable"` regardless of the annotation-derived mode. -/
theorem C1_timestamp_step (f : GoField) (rest : List GoField) (i : Nat)
    (acc : List TableFieldSchema) (n2 p2 : String) (fl2 : List GoField)
    (h1 : f.pkgPath = "") (h2 : f.jsonTag ≠ "-")
    (hpg : pointerGuard f.typ = .structT n2 p2 true fl2)
    (hkey : (n2 == "Key" && stringsContains p2 "appengine") = false) :
    processFields (f :: rest) i acc =
      processFields rest (i + 1)
        (acc ++ [.mk (jsonName f) "timestamp" "nullable" []]) := by
  have hc := structConversion_time n2 p2 fl2 hkey
  rw [processFields_struct f rest i acc n2 p2 true fl2 "timestamp" [] h1 h2 hpg hc]
  simp

/-- C1 (witness): the amended statement at a concrete `time.Time` field
carrying an `omitempty`-free tag. -/
theorem C1_witness :
    processFields [.mk "When" "" "when" (.structT "Time" "time" true [])] 0 [] =
      processFields [] 1 [.mk "when" "timestamp" "nullable" []] := by
  have h := C1_timestamp_step (.mk "When" "" "when" (.structT "Time" "time" true []))
    [] 0 [] "Time" "time" [] (by rfl) (by decide) (by rfl) (by decide)
  simpa [jsonName, GoField.jsonTag, GoField.name,
    show splitComma "when" = ["when"] from by decide] using h

/-- C2 (counterexample): the claim as stated is false.  In this struct the
visible field `Tags []string` is an array of a primitive element, yet the
conversion produces no schema entry for it at all: a suppressed field
precedes it, so the write `schema.Fields[i]` indexes past the slice's end
and the run panics (modelled by `fault`). -/
theorem C2_cex :
    ToSchema (.structT "S" "" false
        [.mk "Skip" "" "-" .int, .mk "Tags" "" "" (.array .string)]) = .fault := by
  simp [ToSchema, processFields, structConversion, pointerGuard, GoType.kind,
    simpleType, GoField.pkgPath, GoField.jsonTag, GoField.typ, GoField.name,
    jsonName, jsonMode, modifyField]

/-- C2 (amended): a visible, non-suppressed field whose pointer-unwrapped
type is an array/slice of a primitive element (after unwrapping one pointer
level on the element) produces exactly one entry with mode `"repeated"`,
the element's primitive tag as type and empty children — provided the
entry's index equals the slice length, i.e. no earlier field of the struct
was skipped (otherwise the conversion panics, see C10). -/
theorem C2_repeated_step (f : GoField) (rest : List GoField) (i : Nat)
    (acc : List TableFieldSchema) (elem : GoType) (t : String)
    (h1 : f.pkgPath = "") (h2 : f.jsonTag ≠ "-")
    (hpg : pointerGuard f.typ = .array elem)
    (hs : simpleType (pointerGuard elem).kind = (t, true))
    (hi : acc.length = i) :
    processFields (f :: rest) i acc =
      processFields rest (i + 1) (acc ++ [.mk (jsonName f) t "repeated" []]) :=
  processFields_array_simple f rest i acc elem t h1 h2 hpg hs hi

/-- C2 (witness): the amended statement at a concrete `[]string` field. -/
theorem C2_witness :
    processFields [.mk "Tags" "" "" (.array .string)] 0 [] =
      processFields [] 1 [.mk "Tags" "string" "repeated" []] := by
  have h := C2_repeated_step (.mk "Tags" "" "" (.array .string)) [] 0 [] .string "string"
    (by rfl) (by decide) (by rfl) (by rfl) (by rfl)
  simpa [jsonName, GoField.jsonTag, GoField.name] using h

/-- C3: a visible, non-suppressed field whose pointer-unwrapped type is a
struct that is neither the appengine `Key` type nor convertible to
`time.Time` produces the entry `type = "record"`, mode `"nullable"`
(overriding the annotation-derived mode), and children equal to the
recursive conversion of the nested struct type. -/
theorem C3_nested_record_step (f : GoField) (rest : List GoField) (i : Nat)
    (acc : List TableFieldSchema) (n2 p2 : String) (fl2 : List GoField)
    (subfs : List TableFieldSchema)
    (h1 : f.pkgPath = "") (h2 : f.jsonTag ≠ "-")
    (hpg : pointerGuard f.typ = .structT n2 p2 false fl2)
    (hkey : (n2 == "Key" && stringsContains p2 "appengine") = false)
    (hts : ToSchema (.structT n2 p2 false fl2) = .ok subfs) :
    processFields (f :: rest) i acc =
      processFields rest (i + 1)
        (acc ++ [.mk (jsonName f) "record" "nullable" subfs]) := by
  have hc := structConversion_rec_ok n2 p2 fl2 subfs hkey hts
  rw [processFields_struct f rest i acc n2 p2 false fl2 "record" subfs h1 h2 hpg hc]
  simp

/-- C3 (witness): a nested one-field struct under a tag that would
otherwise make the mode `"required"`; the produced entry is a nullable
record carrying the recursively inferred children. -/
theorem C3_witness :
    processFields [.mk "Inner" "" "" (.structT "Sub" "main" false
        [.mk "Name" "" "" .string])] 0 [] =
      processFields [] 1
        [.mk "Inner" "record" "nullable" [.mk "Name" "string" "required" []]] := by
  have h := C3_nested_record_step
    (.mk "Inner" "" "" (.structT "Sub" "main" false [.mk "Name" "" "" .string]))
    [] 0 [] "Sub" "main" [.mk "Name" "" "" .string]
    [.mk "Name" "string" "required" []]
    (by rfl) (by decide) (by rfl) (by decide)
    (by simp [ToSchema, processFields, pointerGuard, GoType.kind, simpleType,
      GoField.pkgPath, GoField.jsonTag, GoField.typ, GoField.name, jsonName, jsonMode])
  simpa [jsonName, GoField.jsonTag, GoField.name] using h

/-- C4: when `ToSchema` returns with a nil error, the output has exactly one
entry per exported, non-suppressed field, in declaration order — stated as:
the entry names are precisely the tag-resolved names of the emitted fields —
and unexported fields and fields tagged `json:"-"` contribute no entry. -/
theorem C4_entries (n p : String) (cv : Bool) (flds : List GoField)
    (fs : List TableFieldSchema)
    (h : ToSchema (.structT n p cv flds) = .ok fs) :
    fs.map TableFieldSchema.name = (flds.filter emitted).map jsonName := by
  rw [ToSchema_struct] at h
  have hn := processFields_ok_names flds 0 [] fs h
  simpa using hn

/-- C4 (witness): a struct with an unexported field, a suppressed field and
two emitted fields. -/
theorem C4_witness :
    ([.mk "Name" "string" "required" [], .mk "age" "integer" "nullable" []] :
        List TableFieldSchema).map TableFieldSchema.name =
      (([.mk "hidden" "main" "" .int, .mk "Name" "" "" .string,
         .mk "Skip" "" "-" .bool, .mk "Age" "" "age,omitempty" .int] :
        List GoField).filter emitted).map jsonName :=
  C4_entries "S" "" false
    [.mk "hidden" "main" "" .int, .mk "Name" "" "" .string,
     .mk "Skip" "" "-" .bool, .mk "Age" "" "age,omitempty" .int]
    [.mk "Name" "string" "required" [], .mk "age" "integer" "nullable" []]
    (by simp [ToSchema, processFields, pointerGuard, GoType.kind, simpleType,
      GoField.pkgPath, GoField.jsonTag, GoField.typ, GoField.name,
      jsonName, jsonMode,
      show splitComma "age,omitempty" = ["age", "omitempty"] from by decide])

/-- C5 (counterexample): the claim as stated is false.  A nested struct type
with no visible fields produces an entry with `type = "record"` and an empty
children list, so children-non-empty is not equivalent to type-record. -/
theorem C5_cex :
    ToSchema (.structT "Outer" "" false
        [.mk "Inner" "" "" (.structT "Empty" "" false [])]) =
      .ok [.mk "Inner" "record" "nullable" []] ∧
    childrenIffRecordList [.mk "Inner" "record" "nullable" []] = false := by
  constructor
  · rw [ToSchema_struct,
      processFields_struct (.mk "Inner" "" "" (.structT "Empty" "" false [])) [] 0 []
        "Empty" "" false [] "record" [] rfl (by decide) rfl
        (structConversion_rec_ok "Empty" "" [] [] (by decide)
          (by rw [ToSchema_struct, processFields_nil])),
      processFields_nil]
    simp [jsonName, jsonMode, GoField.jsonTag, GoField.name]
  · simp [childrenIffRecordList, childrenIffRecord]

/-- C5 (amended): in every schema returned with a nil error, an entry whose
type is not `"record"` has empty children, at every nesting level; when the
type is `"record"` the children are the nested conversion's fields, which
may be empty. -/
theorem C5_children_record_only (t : GoType) (fs : List TableFieldSchema)
    (h : ToSchema t = .ok fs) : recordOnlyList fs = true := by
  obtain ⟨n, p, cv, fl, rfl, hpf⟩ := ToSchema_ok_inv t fs h
  exact processFields_ok_recordOnly (sizeOf fl + 1) fl 0 [] fs (by omega) (by simp)
    (by simp [recordOnlyList]) hpf

/-- C5 (witness): the amended statement at a nested record input. -/
theorem C5_witness :
    recordOnlyList
      [.mk "Inner" "record" "nullable" [.mk "Name" "string" "required" []]] = true :=
  C5_children_record_only
    (.structT "Outer" "" false
      [.mk "Inner" "" "" (.structT "Sub" "main" false [.mk "Name" "" "" .string])])
    [.mk "Inner" "record" "nullable" [.mk "Name" "string" "required" []]]
    (by
      have hsub : ToSchema (.structT "Sub" "main" false [.mk "Name" "" "" .string]) =
          .ok [.mk "Name" "string" "required" []] := by
        rw [ToSchema_struct,
          processFields_simple (.mk "Name" "" "" .string) [] 0 [] "string"
            rfl (by decide) rfl,
          processFields_nil]
        simp [jsonName, jsonMode, GoField.jsonTag, GoField.name]
      rw [ToSchema_struct,
        processFields_struct
          (.mk "Inner" "" "" (.structT "Sub" "main" false [.mk "Name" "" "" .string]))
          [] 0 [] "Sub" "main" false [.mk "Name" "" "" .string] "record"
          [.mk "Name" "string" "required" []] rfl (by decide) rfl
          (structConversion_rec_ok "Sub" "main" [.mk "Name" "" "" .string]
            [.mk "Name" "string" "required" []] (by decide) hsub),
        processFields_nil]
      simp [jsonName, jsonMode, GoField.jsonTag, GoField.name])

/-- C6: a visible, non-suppressed field whose pointer-unwrapped type is an
array/slice whose pointer-unwrapped element is neither simple nor a struct
(in particular another array/slice, or a double pointer, or a map-like kind)
aborts the whole conversion with the `ErrArrayOfArray` error. -/
theorem C6_array_of_arrays (f : GoField) (rest : List GoField) (i : Nat)
    (acc : List TableFieldSchema) (elem : GoType)
    (h1 : f.pkgPath = "") (h2 : f.jsonTag ≠ "-")
    (hpg : pointerGuard f.typ = .array elem)
    (hs : simpleType (pointerGuard elem).kind = ("", false))
    (hk : (pointerGuard elem).kind ≠ .structK) :
    processFields (f :: rest) i acc =
      .fail (acc ++ [.mk (jsonName f) "" "repeated" []]) .arrayOfArray :=
  processFields_array_notStruct f rest i acc elem h1 h2 hpg hs hk

/-- C6 (witness): a `[][]int` field aborts with `ErrArrayOfArray`. -/
theorem C6_witness :
    processFields [.mk "A" "" "" (.array (.array .int))] 0 [] =
      .fail [.mk "A" "" "repeated" []] .arrayOfArray := by
  have h := C6_array_of_arrays (.mk "A" "" "" (.array (.array .int))) [] 0 []
    (.array .int) (by rfl) (by decide) (by rfl) (by rfl) (by decide)
  simpa [jsonName, GoField.jsonTag, GoField.name] using h

/-- C7: a top-level input whose runtime kind is not a struct returns the
empty schema together with the `ErrNotStruct` error, without touching any
field. -/
theorem C7_not_record (t : GoType) (h : t.kind ≠ .structK) :
    ToSchema t = .fail [] .notStruct :=
  ToSchema_notStruct t h

/-- C7 (witness): an `int` input. -/
theorem C7_witness : ToSchema .int = .fail [] .notStruct :=
  C7_not_record .int (by decide)

/-- C8: a field declared as a single-level pointer to a primitive type is
processed exactly like the same field declared with the bare primitive:
the remaining computation, and in particular the produced entry, coincide. -/
theorem C8_pointer_transparent (nm pp tag : String) (t : GoType)
    (rest : List GoField) (i : Nat) (acc : List TableFieldSchema)
    (h : (simpleType t.kind).2 = true) :
    processFields (.mk nm pp tag (.ptr t) :: rest) i acc =
      processFields (.mk nm pp tag t :: rest) i acc := by
  by_cases h1 : pp = ""
  · by_cases h2 : tag = "-"
    · rw [processFields_skip_dash (.mk nm pp tag (.ptr t)) rest i acc h1 h2,
          processFields_skip_dash (.mk nm pp tag t) rest i acc h1 h2]
    · have hpair : simpleType t.kind = ((simpleType t.kind).1, true) := by
        rw [← h]
      have hs1 : simpleType (pointerGuard (GoField.mk nm pp tag (.ptr t)).typ).kind =
          ((simpleType t.kind).1, true) := by
        rw [show (GoField.mk nm pp tag (.ptr t)).typ = .ptr t from rfl, pointerGuard_ptr,
          ← h]
      have hs2 : simpleType (pointerGuard (GoField.mk nm pp tag t).typ).kind =
          ((simpleType t.kind).1, true) := by
        rw [show (GoField.mk nm pp tag t).typ = t from rfl,
          pointerGuard_eq_self_of_simple t h, ← h]
      rw [processFields_simple (.mk nm pp tag (.ptr t)) rest i acc _ h1 h2 hs1,
          processFields_simple (.mk nm pp tag t) rest i acc _ h1 h2 hs2]
      simp [jsonName, jsonMode, GoField.jsonTag, GoField.name]
  · rw [processFields_skip_unexported (.mk nm pp tag (.ptr t)) rest i acc h1,
        processFields_skip_unexported (.mk nm pp tag t) rest i acc h1]

/-- C8 (witness): `*int` behaves like `int`. -/
theorem C8_witness :
    processFields [.mk "Age" "" "" (.ptr .int)] 0 [] =
      processFields [.mk "Age" "" "" .int] 0 [] :=
  C8_pointer_transparent "Age" "" "" .int [] 0 [] (by rfl)

/-- C9: a struct all of whose exported fields have primitive declared types
converts with a nil error to one entry per emitted field in declaration
order, named by the tag's first component when a tag is present and by the
declared name otherwise, with mode `"nullable"` exactly on `omitempty`
annotated fields and `"required"` otherwise. -/
theorem C9_primitive_struct (n p : String) (cv : Bool) (flds : List GoField)
    (h : ∀ f ∈ flds, f.pkgPath = "" → (simpleType f.typ.kind).2 = true) :
    ToSchema (.structT n p cv flds) =
      .ok ((flds.filter emitted).map simpleEntry) := by
  rw [ToSchema_struct]
  have h' : ∀ f ∈ flds, f.pkgPath = "" →
      (simpleType (pointerGuard f.typ).kind).2 = true := by
    intro f hf hp
    rw [pointerGuard_eq_self_of_simple f.typ (h f hf hp)]
    exact h f hf hp
  have hall := processFields_all_simple flds 0 [] h'
  simpa using hall

/-- C9 (witness): the spec's own example `Name string` and
`Age int json:"age,omitempty"`. -/
theorem C9_witness :
    ToSchema (.structT "S" "" false
        [.mk "Name" "" "" .string, .mk "Age" "" "age,omitempty" .int]) =
      .ok [.mk "Name" "string" "required" [], .mk "age" "integer" "nullable" []] := by
  have h := C9_primitive_struct "S" "" false
    [.mk "Name" "" "" .string, .mk "Age" "" "age,omitempty" .int]
    (by intro f hf hp; fin_cases hf <;> rfl)
  simpa [emitted, simpleEntry, pointerGuard, GoType.kind, simpleType,
    GoField.pkgPath, GoField.jsonTag, GoField.typ, GoField.name, jsonName, jsonMode,
    show splitComma "age,omitempty" = ["age", "omitempty"] from by decide] using h

/-- C10 (code bug): the conversion does not always stay within the bounds
of the output slice.  With an unexported field preceding a `[]string`
field, the loop index `i` is `1` while `schema.Fields` holds a single
entry, so `schema.Fields[i]` is out of range and the run panics. -/
theorem C10_index_fault :
    ToSchema (.structT "S" "" false
        [.mk "hidden" "main" "" .int, .mk "Tags" "" "" (.array .string)]) =
      .fault := by
  simp [ToSchema, processFields, structConversion, pointerGuard, GoType.kind,
    simpleType, GoField.pkgPath, GoField.jsonTag, GoField.typ, GoField.name,
    jsonName, jsonMode, modifyField]
